import Mathlib

/-!
Verification of the Pardalotus Snapshot Tool ingestion pipeline
(`src/main.rs`, `src/metadata.rs`, `src/write.rs`), shallowly embedded in
Lean 4.

Modelling conventions:

* A `serde_json::Value` is modelled by the inductive `Json`.  Numbers are
  modelled by `Int` (the numeric payload is never inspected by this
  program, only carried).  Objects are association lists; `Value::get`
  is key lookup.
* Byte / character streams are `List Char`.  `flate2`'s gzip encoder and
  decoder are an external, lossless codec, modelled as the identity on
  the stream content (every decoder in the source wraps its input in
  `GzDecoder` immediately, so only the decompressed content matters).
* `serde_json::to_writer` / `serde_json::from_str` belong to an external
  crate; they are passed into each embedded function as an explicit
  codec pair `ser : Json → List Char` / `parse : List Char → Option Json`.
  Facts the pipeline needs about the codec (round-trip on the records at
  hand, serialised records contain no newline) appear as hypotheses.
* The `std::sync::mpsc` bounded channel hands every sent message to the
  single consumer in FIFO order; a producer/consumer pair is modelled by
  the producer returning the list of messages it sent, which the
  consumer then folds over.  Channel closure terminating the consumer's
  `for` loop corresponds to the list being finite.
* `std::fs` is modelled by passing directory trees and file contents as
  values; paths that are not valid UTF-8 (`Path::to_str` returning
  `None`) are the `OsStr.nonUtf8` constructor.
-/

/-- `serde_json::Value`. -/
inductive Json where
  | null : Json
  | bool (b : Bool) : Json
  | num (n : Int) : Json
  | str (s : String) : Json
  | arr (items : List Json) : Json
  | obj (fields : List (String × Json)) : Json

/-- `Value::get(key)`: field lookup on an object, `None` on any other
variant (`serde_json` object keys are unique, so first-match lookup
agrees with map lookup). -/
def Json.get : Json → String → Option Json
  | .obj fields, key => fields.lookup key
  | _, _ => none

/-- `Value::as_str`. -/
def Json.asStr : Json → Option String
  | .str s => some s
  | _ => none

/-- `Value::as_array`. -/
def Json.asArr : Json → Option (List Json)
  | .arr items => some items
  | _ => none

/-- An operating-system string (`OsStr` / `PathBuf`): either valid UTF-8
or a byte sequence that is not. -/
inductive OsStr where
  | utf8 (s : List Char) : OsStr
  | nonUtf8 (bytes : List Nat) : OsStr

/-- `Path::to_str`: `Some` exactly when the path is valid UTF-8. -/
def OsStr.toStr : OsStr → Option (List Char)
  | .utf8 s => some s
  | .nonUtf8 _ => none

/-! ### `BufRead::lines`

Rust's `lines()` iterator splits the stream at `'\n'`, strips the
terminator and an immediately preceding `'\r'`, yields a final
unterminated line if the stream does not end in `'\n'`, and yields
nothing for the empty stream. -/

def splitLinesAux : List Char → List Char → List (List Char)
  | [], acc => if acc.isEmpty then [] else [acc.reverse]
  | c :: rest, acc =>
    if c = '\n' then acc.reverse :: splitLinesAux rest []
    else splitLinesAux rest (c :: acc)

/-- Strip one trailing `'\r'` (the `\r\n` case of `lines()`). -/
def stripCR (l : List Char) : List Char :=
  if l.getLast? = some '\r' then l.dropLast else l

/-- The sequence of lines `BufRead::lines` yields on `content`. -/
def rustLines (content : List Char) : List (List Char) :=
  (splitLinesAux content []).map stripCR

/-! ### Line-JSON decoding (`read_jsonl_to_channel`, `read_jsonl_gz_to_channel`)

Each produced line is parsed with `serde_json::from_str`; the parsed
value is sent to the channel; a parse failure aborts the loop with an
error (the `?` on `serde_json::from_str`), after which the
already-sent records remain in the channel.  The result is the list of
sent records together with `true` for `Ok(())` and `false` for a
propagated error. -/

def read_lines_to_channel (parse : List Char → Option Json) :
    List (List Char) → List Json × Bool
  | [] => ([], true)
  | l :: rest =>
    match parse l with
    | none => ([], false)
    | some j =>
      let out := read_lines_to_channel parse rest
      (j :: out.1, out.2)

/-- `read_jsonl_to_channel`: line-JSON from an uncompressed reader
(used on tar entries). -/
def read_jsonl_to_channel (parse : List Char → Option Json)
    (content : List Char) : List Json × Bool :=
  read_lines_to_channel parse (rustLines content)

/-- `read_jsonl_gz_to_channel`: line-JSON from a gzip-compressed file;
gzip is modelled as identity on the decompressed content. -/
def read_jsonl_gz_to_channel (parse : List Char → Option Json)
    (content : List Char) : List Json × Bool :=
  read_lines_to_channel parse (rustLines content)

/-! ### The re-serialising writer (`write_chan_to_json_gz`)

For each record drained from the channel it writes the compact
serialisation followed by `b"\n"` into the gzip stream; the produced
(decompressed) file content is the concatenation. -/

def write_chan_to_json_gz (ser : Json → List Char) (records : List Json) :
    List Char :=
  (records.map (fun r => ser r ++ ['\n'])).flatten

/-! ### Round-trip lemmas -/

theorem splitLinesAux_append_newline (l rest : List Char) (acc : List Char)
    (hl : '\n' ∉ l) :
    splitLinesAux (l ++ '\n' :: rest) acc =
      (acc.reverse ++ l) :: splitLinesAux rest [] := by
  induction l generalizing acc with
  | nil => simp [splitLinesAux]
  | cons c cs ih =>
    have hc : c ≠ '\n' := fun h => hl (h ▸ List.mem_cons_self c cs)
    have hcs : '\n' ∉ cs := fun h => hl (List.mem_cons_of_mem c h)
    have hc' : ¬ (c = '\n') := hc
    have h1 : splitLinesAux ((c :: cs) ++ '\n' :: rest) acc =
        if c = '\n' then acc.reverse :: splitLinesAux (cs ++ '\n' :: rest) []
        else splitLinesAux (cs ++ '\n' :: rest) (c :: acc) := rfl
    rw [h1, if_neg hc', ih (c :: acc) hcs]
    simp

theorem stripCR_of_not_mem (l : List Char) (h : '\r' ∉ l) :
    stripCR l = l := by
  unfold stripCR
  cases hl : l.getLast? with
  | none => simp
  | some c =>
    by_cases hc : c = '\r'
    · subst hc
      rcases List.mem_getLast?_eq_getLast (Option.mem_def.mpr hl) with ⟨hne, heq⟩
      exact absurd (heq ▸ List.getLast_mem hne) h
    · simp [hl, Option.some_inj, hc]

theorem rustLines_write (ser : Json → List Char) (records : List Json)
    (h : ∀ r ∈ records, '\n' ∉ ser r ∧ '\r' ∉ ser r) :
    rustLines (write_chan_to_json_gz ser records) = records.map ser := by
  induction records with
  | nil => rfl
  | cons r rs ih =>
    have hr := h r (List.mem_cons_self r rs)
    have hrs : ∀ x ∈ rs, '\n' ∉ ser x ∧ '\r' ∉ ser x :=
      fun x hx => h x (List.mem_cons_of_mem r hx)
    have step : write_chan_to_json_gz ser (r :: rs) =
        ser r ++ '\n' :: write_chan_to_json_gz ser rs := by
      simp [write_chan_to_json_gz]
    rw [rustLines, step, splitLinesAux_append_newline _ _ _ hr.1]
    simp only [List.reverse_nil, List.nil_append, List.map_cons,
      stripCR_of_not_mem _ hr.2]
    have ihx := ih hrs
    rw [rustLines] at ihx
    rw [ihx]

theorem read_lines_map_ser (ser : Json → List Char)
    (parse : List Char → Option Json) (records : List Json)
    (h : ∀ r ∈ records, parse (ser r) = some r) :
    read_lines_to_channel parse (records.map ser) = (records, true) := by
  induction records with
  | nil => rfl
  | cons r rs ih =>
    have hr := h r (List.mem_cons_self r rs)
    have hrs : ∀ x ∈ rs, parse (ser x) = some x :=
      fun x hx => h x (List.mem_cons_of_mem r hx)
    simp [read_lines_to_channel, hr, ih hrs]

/-! ### A small concrete codec, used to instantiate codec hypotheses -/

def demoSer : Json → List Char
  | .null => ['n']
  | .bool true => ['t']
  | .bool false => ['f']
  | .num n => 'i' :: (toString n).data
  | .str s => 's' :: s.data
  | .arr _ => ['a']
  | .obj _ => ['o']

def demoParse : List Char → Option Json
  | ['n'] => some .null
  | ['t'] => some (.bool true)
  | ['f'] => some (.bool false)
  | 's' :: rest => some (.str (String.mk rest))
  | _ => none

/-- C2. For every finite sequence of JSON records, writing them through
the re-serialising writer (one JSON line per record into a gzip file)
and re-ingesting the produced file through the line-JSON decoder yields
the same records, in the same order, with the decoder finishing
successfully — provided the serde codec round-trips on those records and
never puts a raw newline (or carriage return) into a serialised record,
which compact JSON serialisation guarantees by escaping control
characters. -/
theorem write_read_roundtrip (ser : Json → List Char)
    (parse : List Char → Option Json) (records : List Json)
    (h : ∀ r ∈ records,
      parse (ser r) = some r ∧ '\n' ∉ ser r ∧ '\r' ∉ ser r) :
    read_jsonl_gz_to_channel parse (write_chan_to_json_gz ser records) =
      (records, true) := by
  rw [read_jsonl_gz_to_channel,
    rustLines_write ser records (fun r hr => (h r hr).2)]
  exact read_lines_map_ser ser parse records (fun r hr => (h r hr).1)

/-- Witness for C2 at a concrete record list and the concrete demo codec. -/
theorem write_read_roundtrip_witness :
    read_jsonl_gz_to_channel demoParse
      (write_chan_to_json_gz demoSer [Json.str "a", Json.bool true]) =
      ([Json.str "a", Json.bool true], true) := by
  apply write_read_roundtrip
  intro r hr
  rcases List.mem_cons.mp hr with rfl | hr
  · exact ⟨rfl, by decide, by decide⟩
  rcases List.mem_cons.mp hr with rfl | hr
  · exact ⟨rfl, by decide, by decide⟩
  · cases hr

/-! ### Single-document decoder (`read_json_gz_to_channel`, format A)

The whole decompressed stream is parsed as one JSON document
(`serde_json::from_reader`, fatal on failure via `?`); if the document
has a top-level `"items"` field holding an array, each element is sent;
otherwise a non-fatal diagnostic is printed and the function returns
`Ok(())` having sent nothing. -/

structure JsonGzOut where
  sent : List Json
  diag : Bool
  ok : Bool

def read_json_gz_to_channel (parse : List Char → Option Json)
    (content : List Char) : JsonGzOut :=
  match parse content with
  | none => ⟨[], false, false⟩
  | some doc =>
    match (doc.get "items").bind Json.asArr with
    | some items => ⟨items, false, true⟩
    | none => ⟨[], true, true⟩

/-! ### Tar decoder (`read_tgz_to_channel`, format B)

The `tar` crate's entry iteration is external: the decompressed archive
is modelled as its list of entries, each carrying `Path::file_name()` of
the entry path (`None` for paths without a file name) and the entry's
byte stream.  Entries whose UTF-8 file name ends in `.jsonl` are fed to
the line-JSON decoder in archive order; a decode failure propagates
(`?`); all other entries are skipped. -/

structure TarEntry where
  fileName : Option OsStr
  content : List Char

def tarEntryMatches (e : TarEntry) : Bool :=
  ((e.fileName.bind OsStr.toStr).map
    (fun s => ".jsonl".data.isSuffixOf s)).getD false

def read_tgz_to_channel (parse : List Char → Option Json) :
    List TarEntry → List Json × Bool
  | [] => ([], true)
  | e :: rest =>
    if tarEntryMatches e then
      let out := read_jsonl_to_channel parse e.content
      if out.2 then
        let out2 := read_tgz_to_channel parse rest
        (out.1 ++ out2.1, out2.2)
      else (out.1, false)
    else read_tgz_to_channel parse rest

/-! ### Format dispatch and the producer loop (`read_paths_to_channel`)

A file on disk is a path together with its (gzip-decompressed) content;
a `.tgz` file's content is its entry list (the tar container format
being external).  The producer walks the path list in order, dispatches
on the UTF-8 path suffix — `.tgz`, then `.json.gz`, then `.jsonl.gz`,
silently ignoring paths matching none of the three or not valid UTF-8 —
and stops at the first decoder error (`?` in the source loop). -/

inductive FileFormat where
  | tgz : FileFormat
  | jsonGz : FileFormat
  | jsonlGz : FileFormat
deriving DecidableEq

inductive FileData where
  | bytes (content : List Char) : FileData
  | archive (entries : List TarEntry) : FileData

structure SrcFile where
  path : OsStr
  data : FileData

/-- The suffix dispatch of `read_paths_to_channel`, in source order. -/
def dispatch (pathStr : List Char) : Option FileFormat :=
  if ".tgz".data.isSuffixOf pathStr then some .tgz
  else if ".json.gz".data.isSuffixOf pathStr then some .jsonGz
  else if ".jsonl.gz".data.isSuffixOf pathStr then some .jsonlGz
  else none

/-- Run the decoder selected for `fmt` on the file's content.  A file
whose content is not in the container shape its suffix promises (e.g. a
`.tgz` that is not a tar stream) fails, mirroring the I/O error of the
underlying reader. -/
def decode_file (parse : List Char → Option Json) :
    FileFormat → FileData → List Json × Bool
  | .tgz, .archive entries => read_tgz_to_channel parse entries
  | .jsonGz, .bytes content =>
    let out := read_json_gz_to_channel parse content
    (out.sent, out.ok)
  | .jsonlGz, .bytes content => read_jsonl_gz_to_channel parse content
  | _, _ => ([], false)

def read_paths_to_channel (parse : List Char → Option Json) :
    List SrcFile → List Json × Bool
  | [] => ([], true)
  | f :: rest =>
    match f.path.toStr with
    | none => read_paths_to_channel parse rest
    | some pstr =>
      match dispatch pstr with
      | none => read_paths_to_channel parse rest
      | some fmt =>
        let out := decode_file parse fmt f.data
        if out.2 then
          let out2 := read_paths_to_channel parse rest
          (out.1 ++ out2.1, out2.2)
        else (out.1, false)

/-- The records a single file contributes when its decode succeeds
(nothing for unrecognised or non-UTF-8 paths). -/
def file_records (parse : List Char → Option Json) (f : SrcFile) :
    List Json :=
  match f.path.toStr with
  | none => []
  | some pstr =>
    match dispatch pstr with
    | none => []
    | some fmt => (decode_file parse fmt f.data).1

/-- Whether a single file's decode succeeds (vacuously true for files
the dispatcher ignores). -/
def file_ok (parse : List Char → Option Json) (f : SrcFile) : Bool :=
  match f.path.toStr with
  | none => true
  | some pstr =>
    match dispatch pstr with
    | none => true
    | some fmt => (decode_file parse fmt f.data).2

/-! ### The counting consumer (`main_r`, `--count-records`)

`for _ in rx.iter() { count += 1 }` — the consumer drains the channel,
i.e. the producer's sent list, and counts one per message; the loop ends
when the channel is closed and drained. -/

def count_loop : List Json → Nat
  | [] => 0
  | _ :: rest => count_loop rest + 1

def count_records_run (parse : List Char → Option Json)
    (files : List SrcFile) : Nat :=
  count_loop (read_paths_to_channel parse files).1

/-! ### The path scanner (`find_input_files`)

A directory is modelled by its entry list (in `read_dir` order); the
scanner pushes regular files whose UTF-8 path ends in one of the three
recognised suffixes and recurses into directories in place. -/

inductive FsEntry where
  | file (path : OsStr) : FsEntry
  | dir (entries : List FsEntry) : FsEntry

def scanMatches (s : List Char) : Bool :=
  ".json.gz".data.isSuffixOf s || ".tgz".data.isSuffixOf s ||
    ".jsonl.gz".data.isSuffixOf s

def find_input_files : List FsEntry → List OsStr
  | [] => []
  | .file p :: rest =>
    (match p.toStr with
     | some s => if scanMatches s then [p] else []
     | none => []) ++ find_input_files rest
  | .dir entries :: rest => find_input_files entries ++ find_input_files rest

/-! ### The output-mode run (`main_r`, `--output-file`)

`PathBuf`s are compared component-wise by `Path::starts_with`; paths are
modelled as component lists.  The guard runs before the channel, the
reader thread or the output file handle is created; on conflict the
process exits with status 1 having written nothing, otherwise the run
writes the produced records through `write_chan_to_json_gz`. -/

def output_run (ser : Json → List Char) (parse : List Char → Option Json)
    (output_file input_dir : List String) (files : List SrcFile) :
    Except Unit (List Char) :=
  if input_dir.isPrefixOf output_file then Except.error ()
  else Except.ok
    (write_chan_to_json_gz ser (read_paths_to_channel parse files).1)

/-! ### DOI lookup (`get_doi_from_record`, `src/metadata.rs`) -/

def get_doi_from_record (record : Json) : Option String :=
  match (record.get "DOI").bind Json.asStr with
  | some doi => some doi
  | none =>
    match (record.get "doi").bind Json.asStr with
    | some doi => some doi
    | none => none

/-! ### Theorems: producer/consumer counting -/

theorem count_loop_eq_length (l : List Json) : count_loop l = l.length := by
  induction l with
  | nil => rfl
  | cons j rest ih => simp [count_loop, ih]

theorem read_paths_of_all_ok (parse : List Char → Option Json)
    (files : List SrcFile)
    (h : ∀ f ∈ files, file_ok parse f = true) :
    read_paths_to_channel parse files =
      ((files.map (file_records parse)).flatten, true) := by
  induction files with
  | nil => rfl
  | cons f rest ih =>
    have hrest : ∀ g ∈ rest, file_ok parse g = true :=
      fun g hg => h g (List.mem_cons_of_mem f hg)
    cases hpath : f.path.toStr with
    | none =>
      simp [read_paths_to_channel, hpath, file_records, ih hrest]
    | some pstr =>
      cases hfmt : dispatch pstr with
      | none =>
        simp [read_paths_to_channel, hpath, hfmt, file_records, ih hrest]
      | some fmt =>
        have hok : (decode_file parse fmt f.data).2 = true := by
          have hf := h f (List.mem_cons_self f rest)
          simp only [file_ok, hpath, hfmt] at hf
          exact hf
        simp [read_paths_to_channel, hpath, hfmt, file_records, hok, ih hrest]

/-- C1.  When every recognised file of the input decodes without error,
to N records in total, the `--count-records` consumer reports exactly N:
the producer sends each decoded record once, the counting loop counts
each channel message once, and the loop ends when the closed channel is
drained (the sent list is exhausted). -/
theorem count_records_exact (parse : List Char → Option Json)
    (files : List SrcFile) (N : Nat)
    (hok : ∀ f ∈ files, file_ok parse f = true)
    (hN : ((files.map (file_records parse)).flatten).length = N) :
    count_records_run parse files = N := by
  rw [count_records_run, read_paths_of_all_ok parse files hok,
    count_loop_eq_length, hN]

/-- Witness for C1: one line-JSON file holding a single record. -/
theorem count_records_exact_witness :
    count_records_run demoParse
      [⟨OsStr.utf8 "a.jsonl.gz".data,
        FileData.bytes ['s', 'a', '\n']⟩] = 1 :=
  count_records_exact demoParse _ 1 (by decide) (by decide)

/-! ### Theorems: format dispatch -/

theorem gz_suffixes_exclusive (p : List Char)
    (h1 : ".json.gz".data.isSuffixOf p = true)
    (h2 : ".jsonl.gz".data.isSuffixOf p = true) : False := by
  rw [List.isSuffixOf_iff_suffix] at h1 h2
  rcases List.suffix_or_suffix_of_suffix h1 h2 with h | h
  · exact absurd h (by decide)
  · exact absurd h (by decide)

/-- The Format Dispatcher as the spec describes it: a pure routing
function on the path suffix, priority tar-gzip first, the more specific
of the two overlapping gzip suffixes checked first, and unrecognised
paths selecting no decoder. -/
def dispatch_spec (pathStr : List Char) : Option FileFormat :=
  if ".tgz".data.isSuffixOf pathStr then some .tgz
  else if ".jsonl.gz".data.isSuffixOf pathStr then some .jsonlGz
  else if ".json.gz".data.isSuffixOf pathStr then some .jsonGz
  else none

/-- C8.  The dispatcher is a pure function of the path string routing by
suffix with priority `.tgz`, `.json.gz`, `.jsonl.gz`, and ignores every
other path; since the suffixes never overlap (no string ends in two of
them), it agrees with the spec's description in which the more specific
suffix is tested first. -/
theorem dispatcher_pure_routing :
    ∀ p : List Char, dispatch p = dispatch_spec p := by
  intro p
  unfold dispatch dispatch_spec
  cases h1 : ".tgz".data.isSuffixOf p with
  | true => simp
  | false =>
    cases h2 : ".json.gz".data.isSuffixOf p with
    | false => simp
    | true =>
      cases h3 : ".jsonl.gz".data.isSuffixOf p with
      | false => simp
      | true => exact absurd (gz_suffixes_exclusive p h2 h3) not_false

/-! ### Theorems: DOI lookup -/

/-- C6.  `get_doi_from_record` is total by construction (it is a plain
function into `Option String`, so every record yields a string or an
explicit absence) and checks the upper-case `"DOI"` convention first:
its result is the first string value among the `"DOI"` and `"doi"`
fields, in that order, and `none` when neither field holds a string. -/
theorem doi_lookup_priority : ∀ record : Json,
    get_doi_from_record record =
      Option.or ((record.get "DOI").bind Json.asStr)
        ((record.get "doi").bind Json.asStr) := by
  intro record
  unfold get_doi_from_record
  cases h1 : (record.get "DOI").bind Json.asStr with
  | some doi => simp [Option.or]
  | none =>
    cases h2 : (record.get "doi").bind Json.asStr with
    | some doi => simp [Option.or]
    | none => simp [Option.or]

/-! ### Theorems: output-path guard -/

/-- C5.  In output mode, whenever the output path is equal to the input
directory or nested under it (component-wise, exactly the `starts_with`
prefix test the source performs), the run exits with a failure before
the channel, the reader thread or the output file are created —
no bytes are ever written. -/
theorem output_guard_rejects (ser : Json → List Char)
    (parse : List Char → Option Json)
    (output_file input_dir : List String) (files : List SrcFile)
    (h : input_dir <+: output_file) :
    output_run ser parse output_file input_dir files = Except.error () := by
  have hb : List.isPrefixOf input_dir output_file = true :=
    List.isPrefixOf_iff_prefix.mpr h
  simp [output_run, hb]

/-- Witness for C5: an output file directly inside the input directory,
and (by prefix reflexivity) the equal-path case reduces to the same
test. -/
theorem output_guard_rejects_witness :
    output_run demoSer demoParse ["data", "out.jsonl.gz"] ["data"] [] =
      Except.error () :=
  output_guard_rejects demoSer demoParse _ _ [] ⟨["out.jsonl.gz"], rfl⟩

/-! ### Theorems: format-A shape errors -/

/-- C4.  A `.json.gz` file whose document parses but lacks a top-level
`"items"` array sends nothing, prints the non-fatal diagnostic and
returns `Ok`, so the producer loop carries on with the remaining files
exactly as if the file had contributed zero records. -/
theorem missing_items_nonfatal (parse : List Char → Option Json)
    (content : List Char) (doc : Json)
    (hdoc : parse content = some doc)
    (hitems : (doc.get "items").bind Json.asArr = none) :
    read_json_gz_to_channel parse content = ⟨[], true, true⟩
    ∧ ∀ (f : SrcFile) (rest : List SrcFile) (pstr : List Char),
        f.path.toStr = some pstr → dispatch pstr = some FileFormat.jsonGz →
        f.data = FileData.bytes content →
        read_paths_to_channel parse (f :: rest) =
          read_paths_to_channel parse rest := by
  have hout : read_json_gz_to_channel parse content = ⟨[], true, true⟩ := by
    simp [read_json_gz_to_channel, hdoc, hitems]
  refine ⟨hout, ?_⟩
  intro f rest pstr hpath hfmt hdata
  simp [read_paths_to_channel, hpath, hfmt, decode_file, hdata, hout]

/-- Witness for C4: a document that parses to JSON `null`, which has no
`"items"` field at all. -/
theorem missing_items_nonfatal_witness :
    read_json_gz_to_channel demoParse ['n'] =
      ⟨[], true, true⟩ :=
  (missing_items_nonfatal demoParse ['n'] Json.null rfl rfl).1

/-! ### Theorems: parse errors are fatal but partial results survive -/

theorem read_lines_stops_at_bad (parse : List Char → Option Json)
    (goodLines : List (List Char)) (goodRecords : List Json)
    (badLine : List Char) (restLines : List (List Char))
    (hgood : List.Forall₂ (fun l j => parse l = some j) goodLines goodRecords)
    (hbad : parse badLine = none) :
    read_lines_to_channel parse (goodLines ++ badLine :: restLines) =
      (goodRecords, false) := by
  induction hgood with
  | nil => simp [read_lines_to_channel, hbad]
  | cons hlj _ ih => simp [read_lines_to_channel, hlj, ih]

theorem read_paths_stops_at_failure (parse : List Char → Option Json)
    (pre : List SrcFile) (f : SrcFile) (post : List SrcFile)
    (hpre : ∀ g ∈ pre, file_ok parse g = true)
    (hfail : file_ok parse f = false) :
    read_paths_to_channel parse (pre ++ f :: post) =
      ((pre.map (file_records parse)).flatten ++ file_records parse f,
        false) := by
  induction pre with
  | nil =>
    cases hpath : f.path.toStr with
    | none => simp [file_ok, hpath] at hfail
    | some pstr =>
      cases hfmt : dispatch pstr with
      | none => simp [file_ok, hpath, hfmt] at hfail
      | some fmt =>
        have hko : (decode_file parse fmt f.data).2 = false := by
          have := hfail
          simp only [file_ok, hpath, hfmt] at this
          exact this
        simp [read_paths_to_channel, hpath, hfmt, hko, file_records]
  | cons g pre' ih =>
    have hg := hpre g (List.mem_cons_self g pre')
    have hpre' : ∀ x ∈ pre', file_ok parse x = true :=
      fun x hx => hpre x (List.mem_cons_of_mem g hx)
    cases hpath : g.path.toStr with
    | none =>
      simp [read_paths_to_channel, hpath, file_records, ih hpre']
    | some pstr =>
      cases hfmt : dispatch pstr with
      | none =>
        simp [read_paths_to_channel, hpath, hfmt, file_records, ih hpre']
      | some fmt =>
        have hok : (decode_file parse fmt g.data).2 = true := by
          have := hpre g (List.mem_cons_self g pre')
          simp only [file_ok, hpath, hfmt] at this
          exact this
        simp [read_paths_to_channel, hpath, hfmt, file_records, hok,
          ih hpre']

theorem read_tgz_stops_at_failure (parse : List Char → Option Json)
    (preE : List TarEntry) (e : TarEntry) (postE : List TarEntry)
    (hpre : ∀ x ∈ preE, tarEntryMatches x = true →
      (read_jsonl_to_channel parse x.content).2 = true)
    (hm : tarEntryMatches e = true)
    (hfail : (read_jsonl_to_channel parse e.content).2 = false) :
    read_tgz_to_channel parse (preE ++ e :: postE) =
      (((preE.filter tarEntryMatches).map
          (fun x => (read_jsonl_to_channel parse x.content).1)).flatten ++
        (read_jsonl_to_channel parse e.content).1, false) := by
  induction preE with
  | nil => simp [read_tgz_to_channel, hm, hfail]
  | cons x preE' ih =>
    have hx := hpre x (List.mem_cons_self x preE')
    have hpre' : ∀ y ∈ preE', tarEntryMatches y = true →
        (read_jsonl_to_channel parse y.content).2 = true :=
      fun y hy => hpre y (List.mem_cons_of_mem x hy)
    by_cases hxm : tarEntryMatches x = true
    · simp [read_tgz_to_channel, hxm, hx hxm, List.filter_cons, ih hpre']
    · simp [read_tgz_to_channel, hxm, List.filter_cons, ih hpre']

/-- C3.  A malformed JSON line in either kind of line-JSON stream — a
`.jsonl.gz` file, or a `.jsonl` entry of a `.tgz` archive — makes the
decode of that stream fail right after the records preceding the bad
line have been sent; the parse error propagates to the producer loop,
which stops and never touches the files after the failing one, while
everything sent before the failure (the records of the earlier files,
of the archive's earlier matching entries, and the good prefix of the
failing stream) remains in the channel for the consumer to drain. -/
theorem parse_error_stops_producer (parse : List Char → Option Json) :
    (∀ (pre : List SrcFile) (f : SrcFile) (post : List SrcFile)
        (pstr content : List Char) (goodLines : List (List Char))
        (badLine : List Char) (restLines : List (List Char))
        (goodRecords : List Json),
      (∀ g ∈ pre, file_ok parse g = true) →
      f.path.toStr = some pstr →
      dispatch pstr = some FileFormat.jsonlGz →
      f.data = FileData.bytes content →
      rustLines content = goodLines ++ badLine :: restLines →
      List.Forall₂ (fun l j => parse l = some j) goodLines goodRecords →
      parse badLine = none →
      read_paths_to_channel parse (pre ++ f :: post) =
        ((pre.map (file_records parse)).flatten ++ goodRecords, false))
    ∧ (∀ (pre : List SrcFile) (f : SrcFile) (post : List SrcFile)
        (pstr : List Char) (preE : List TarEntry) (e : TarEntry)
        (postE : List TarEntry) (goodLines : List (List Char))
        (badLine : List Char) (restLines : List (List Char))
        (goodRecords : List Json),
      (∀ g ∈ pre, file_ok parse g = true) →
      f.path.toStr = some pstr →
      dispatch pstr = some FileFormat.tgz →
      f.data = FileData.archive (preE ++ e :: postE) →
      (∀ x ∈ preE, tarEntryMatches x = true →
        (read_jsonl_to_channel parse x.content).2 = true) →
      tarEntryMatches e = true →
      rustLines e.content = goodLines ++ badLine :: restLines →
      List.Forall₂ (fun l j => parse l = some j) goodLines goodRecords →
      parse badLine = none →
      read_paths_to_channel parse (pre ++ f :: post) =
        ((pre.map (file_records parse)).flatten ++
          ((preE.filter tarEntryMatches).map
            (fun x => (read_jsonl_to_channel parse x.content).1)).flatten ++
          goodRecords, false)) := by
  constructor
  · intro pre f post pstr content goodLines badLine restLines goodRecords
      hpre hpath hfmt hdata hlines hgood hbad
    have hstream : read_jsonl_gz_to_channel parse content =
        (goodRecords, false) := by
      rw [read_jsonl_gz_to_channel, hlines]
      exact read_lines_stops_at_bad parse _ _ _ _ hgood hbad
    have hdec : decode_file parse FileFormat.jsonlGz f.data =
        (goodRecords, false) := by
      rw [hdata]
      simpa [decode_file] using hstream
    have hfail : file_ok parse f = false := by
      simp [file_ok, hpath, hfmt, hdec]
    have hrec : file_records parse f = goodRecords := by
      simp [file_records, hpath, hfmt, hdec]
    rw [read_paths_stops_at_failure parse pre f post hpre hfail, hrec]
  · intro pre f post pstr preE e postE goodLines badLine restLines
      goodRecords hpre hpath hfmt hdata hpreE hm hlines hgood hbad
    have hstream : read_jsonl_to_channel parse e.content =
        (goodRecords, false) := by
      rw [read_jsonl_to_channel, hlines]
      exact read_lines_stops_at_bad parse _ _ _ _ hgood hbad
    have htgz : read_tgz_to_channel parse (preE ++ e :: postE) =
        (((preE.filter tarEntryMatches).map
            (fun x => (read_jsonl_to_channel parse x.content).1)).flatten ++
          goodRecords, false) := by
      rw [read_tgz_stops_at_failure parse preE e postE hpreE hm
        (by rw [hstream]), hstream]
    have hdec : decode_file parse FileFormat.tgz f.data =
        (((preE.filter tarEntryMatches).map
            (fun x => (read_jsonl_to_channel parse x.content).1)).flatten ++
          goodRecords, false) := by
      rw [hdata]
      simpa [decode_file] using htgz
    have hfail : file_ok parse f = false := by
      simp [file_ok, hpath, hfmt, hdec]
    have hrec : file_records parse f =
        ((preE.filter tarEntryMatches).map
          (fun x => (read_jsonl_to_channel parse x.content).1)).flatten ++
          goodRecords := by
      simp [file_records, hpath, hfmt, hdec]
    rw [read_paths_stops_at_failure parse pre f post hpre hfail, hrec,
      List.append_assoc]

/-- Witness for C3: the failing file's second line is malformed; the
first line's record survives, and a later file is never processed. -/
theorem parse_error_stops_producer_witness :
    read_paths_to_channel demoParse
      [⟨OsStr.utf8 "b.jsonl.gz".data,
          FileData.bytes ['s', 'a', '\n', 'x', '\n', 's', 'b', '\n']⟩,
        ⟨OsStr.utf8 "c.jsonl.gz".data, FileData.bytes ['s', 'c', '\n']⟩] =
      ([Json.str "a"], false) := by
  have h := (parse_error_stops_producer demoParse).1 []
    ⟨OsStr.utf8 "b.jsonl.gz".data,
      FileData.bytes ['s', 'a', '\n', 'x', '\n', 's', 'b', '\n']⟩
    [⟨OsStr.utf8 "c.jsonl.gz".data, FileData.bytes ['s', 'c', '\n']⟩]
    "b.jsonl.gz".data ['s', 'a', '\n', 'x', '\n', 's', 'b', '\n']
    [['s', 'a']] ['x'] [['s', 'b']] [Json.str "a"]
    (by intro g hg; cases hg) rfl (by decide) rfl (by decide)
    (List.Forall₂.cons rfl List.Forall₂.nil) rfl
  simpa using h

/-! ### Theorems: tar decoding -/

/-- C9.  The tar decoder walks the archive entries in order and decodes
with the line-JSON decoder exactly those entries whose file name ends in
`.jsonl`, skipping all others; when every matching entry decodes
cleanly, the output is the in-order concatenation of the matching
entries' records. -/
theorem tgz_decodes_matching_entries (parse : List Char → Option Json)
    (entries : List TarEntry)
    (h : ∀ e ∈ entries, tarEntryMatches e = true →
      (read_jsonl_to_channel parse e.content).2 = true) :
    read_tgz_to_channel parse entries =
      (((entries.filter tarEntryMatches).map
        (fun e => (read_jsonl_to_channel parse e.content).1)).flatten,
        true) := by
  induction entries with
  | nil => rfl
  | cons e rest ih =>
    have hrest : ∀ x ∈ rest, tarEntryMatches x = true →
        (read_jsonl_to_channel parse x.content).2 = true :=
      fun x hx => h x (List.mem_cons_of_mem e hx)
    by_cases hm : tarEntryMatches e = true
    · have hok := h e (List.mem_cons_self e rest) hm
      simp [read_tgz_to_channel, hm, hok, List.filter_cons, ih hrest]
    · simp [read_tgz_to_channel, hm, List.filter_cons, ih hrest]

/-- Witness for C9, the spec's own example: `x.jsonl` with two lines
plus a non-matching `y.txt` yield exactly the two records of `x.jsonl`. -/
theorem tgz_decodes_matching_entries_witness :
    read_tgz_to_channel demoParse
      [⟨some (OsStr.utf8 "x.jsonl".data),
          ['s', 'a', '\n', 's', 'b', '\n']⟩,
        ⟨some (OsStr.utf8 "y.txt".data), ['z', 'z']⟩] =
      ([Json.str "a", Json.str "b"], true) := by
  have h := tgz_decodes_matching_entries demoParse
    [⟨some (OsStr.utf8 "x.jsonl".data), ['s', 'a', '\n', 's', 'b', '\n']⟩,
      ⟨some (OsStr.utf8 "y.txt".data), ['z', 'z']⟩]
    (by decide)
  rw [h]
  rfl

/-! ### Theorems: non-UTF-8 paths -/

theorem find_input_files_all_utf8 (entries : List FsEntry) :
    (find_input_files entries).all (fun q => q.toStr.isSome) = true := by
  induction entries using find_input_files.induct with
  | case1 => simp [find_input_files]
  | case2 p rest ih =>
    cases hp : p.toStr with
    | none => simpa [find_input_files, hp] using ih
    | some s =>
      by_cases hm : scanMatches s = true
      · simp [find_input_files, hp, hm, ih]
      · simp [find_input_files, hp, hm, ih]
  | case3 es rest ih1 ih2 => simp [find_input_files, ih1, ih2]

/-- C10.  A file whose path is not valid UTF-8 is invisible to the
pipeline: the scanner only ever returns paths with a UTF-8
representation, and in the producer loop such a file is skipped without
being matched against any suffix — whatever its byte-level name (the
quantification over `bytes` covers in particular names whose bytes end
in a recognised archive suffix) and whatever its content, it contributes
zero records. -/
theorem non_utf8_paths_skipped (parse : List Char → Option Json) :
    (∀ entries : List FsEntry,
      (find_input_files entries).all (fun q => q.toStr.isSome) = true)
    ∧ ∀ (bytes : List Nat) (d : FileData) (rest : List SrcFile),
        read_paths_to_channel parse
          ({ path := OsStr.nonUtf8 bytes, data := d } :: rest) =
          read_paths_to_channel parse rest := by
  refine ⟨find_input_files_all_utf8, ?_⟩
  intro bytes d rest
  simp [read_paths_to_channel, OsStr.toStr]

/-! ### The statistics aggregator (spec §4.7) -/

/-- Modelled from the spec: the Statistics Aggregator consumer (spec
§4.7) is part of this repository but missing from `src/`, where only its
DOI helper (`src/metadata.rs`) appears; its state is taken from the
spec's words.  Per record drained it accumulates the serialised JSON
length in characters, DOI presence, DOI length in characters and in
encoded bytes, the maximum Unicode code point in any DOI, a
1024-bucketed histogram of JSON lengths and an unbucketed histogram of
DOI lengths. -/
structure StatsState where
  count : Nat
  totalJsonChars : Nat
  doiCount : Nat
  totalDoiChars : Nat
  totalDoiBytes : Nat
  jsonLenHist : List (Nat × Nat)
  doiLenHist : List (Nat × Nat)
  maxDoiCodepoint : Nat

/-- Increment a frequency-table entry. -/
def histBump (hist : List (Nat × Nat)) (key : Nat) : List (Nat × Nat) :=
  match hist with
  | [] => [(key, 1)]
  | (k, v) :: rest =>
    if k = key then (k, v + 1) :: rest else (k, v) :: histBump rest key

/-- Encoded UTF-8 byte length of a string (`str::len` on the DOI). -/
def utf8Bytes (s : String) : Nat :=
  s.data.foldl (fun acc c => acc + c.utf8Size) 0

/-- Maximum Unicode code point appearing in a string. -/
def maxCodepoint (s : String) : Nat :=
  s.data.foldl (fun acc c => max acc c.toNat) 0

def initStats : StatsState := ⟨0, 0, 0, 0, 0, [], [], 0⟩

/-- Modelled from the spec: one aggregation step of §4.7, applied
exactly once per record by the single consumer thread. -/
def statsStep (ser : Json → List Char) (s : StatsState) (r : Json) :
    StatsState :=
  let jlen := (ser r).length
  let s1 : StatsState :=
    { s with count := s.count + 1,
             totalJsonChars := s.totalJsonChars + jlen,
             jsonLenHist := histBump s.jsonLenHist (jlen / 1024) }
  match get_doi_from_record r with
  | none => s1
  | some doi =>
    { s1 with doiCount := s1.doiCount + 1,
              totalDoiChars := s1.totalDoiChars + doi.length,
              totalDoiBytes := s1.totalDoiBytes + utf8Bytes doi,
              doiLenHist := histBump s1.doiLenHist doi.length,
              maxDoiCodepoint := max s1.maxDoiCodepoint (maxCodepoint doi) }

def statsFold (ser : Json → List Char) (records : List Json) : StatsState :=
  records.foldl (statsStep ser) initStats

/-- The finalised report figures of §4.7: means are computed only after
the channel is drained, and a zero denominator is guarded, the report
showing the sentinel 0 instead of a division by zero. -/
structure StatsReport where
  count : Nat
  meanJsonChars : ℚ
  meanDoiChars : ℚ
  meanDoiBytes : ℚ

/-- Modelled from the spec: finalisation of the aggregate state. -/
def finalizeStats (s : StatsState) : StatsReport :=
  { count := s.count
    meanJsonChars :=
      if s.count = 0 then 0 else (s.totalJsonChars : ℚ) / s.count
    meanDoiChars :=
      if s.doiCount = 0 then 0 else (s.totalDoiChars : ℚ) / s.doiCount
    meanDoiBytes :=
      if s.doiCount = 0 then 0 else (s.totalDoiBytes : ℚ) / s.doiCount }

theorem statsFold_count (ser : Json → List Char) (records : List Json) :
    ∀ s : StatsState,
      (records.foldl (statsStep ser) s).count = s.count + records.length := by
  induction records with
  | nil => intro s; simp
  | cons r rest ih =>
    intro s
    have hstep : (statsStep ser s r).count = s.count + 1 := by
      cases hdoi : get_doi_from_record r with
      | none => simp [statsStep, hdoi]
      | some doi => simp [statsStep, hdoi]
    simp only [List.foldl_cons, ih (statsStep ser s r), hstep,
      List.length_cons]
    omega

/-- C7.  In statistics mode the aggregator visits each record once
(`count` equals the number of records drained); whenever a count is
positive the reported mean equals total divided by count, exactly (in
particular mean · count recovers the total); and when a count is zero no
division is attempted — the report holds the sentinel 0. -/
theorem stats_means_exact (ser : Json → List Char) (records : List Json) :
    (statsFold ser records).count = records.length
    ∧ ((statsFold ser records).count = 0 →
        (finalizeStats (statsFold ser records)).meanJsonChars = 0)
    ∧ ((statsFold ser records).doiCount = 0 →
        (finalizeStats (statsFold ser records)).meanDoiChars = 0
        ∧ (finalizeStats (statsFold ser records)).meanDoiBytes = 0)
    ∧ (0 < (statsFold ser records).count →
        (finalizeStats (statsFold ser records)).meanJsonChars =
          ((statsFold ser records).totalJsonChars : ℚ) /
            (statsFold ser records).count
        ∧ (finalizeStats (statsFold ser records)).meanJsonChars *
            (statsFold ser records).count =
            (statsFold ser records).totalJsonChars)
    ∧ (0 < (statsFold ser records).doiCount →
        (finalizeStats (statsFold ser records)).meanDoiChars *
            (statsFold ser records).doiCount =
            (statsFold ser records).totalDoiChars
        ∧ (finalizeStats (statsFold ser records)).meanDoiBytes *
            (statsFold ser records).doiCount =
            (statsFold ser records).totalDoiBytes) := by
  refine ⟨?_, ?_, ?_, ?_, ?_⟩
  · simpa [statsFold, initStats] using statsFold_count ser records initStats
  · intro h0
    simp [finalizeStats, h0]
  · intro h0
    simp [finalizeStats, h0]
  · intro hpos
    have hne : (statsFold ser records).count ≠ 0 := Nat.pos_iff_ne_zero.mp hpos
    have hcast : ((statsFold ser records).count : ℚ) ≠ 0 :=
      Nat.cast_ne_zero.mpr hne
    constructor
    · simp [finalizeStats, hne]
    · simp only [finalizeStats, if_neg hne]
      exact div_mul_cancel₀ _ hcast
  · intro hpos
    have hne : (statsFold ser records).doiCount ≠ 0 :=
      Nat.pos_iff_ne_zero.mp hpos
    have hcast : ((statsFold ser records).doiCount : ℚ) ≠ 0 :=
      Nat.cast_ne_zero.mpr hne
    constructor
    · simp only [finalizeStats, if_neg hne]
      exact div_mul_cancel₀ _ hcast
    · simp only [finalizeStats, if_neg hne]
      exact div_mul_cancel₀ _ hcast

/-- Witness for C7: one record with a DOI; both counts are positive and
the reported means are the exact quotients. -/
theorem stats_means_exact_witness :
    (finalizeStats (statsFold demoSer
        [Json.obj [("DOI", Json.str "10.1/a")]])).meanJsonChars =
      ((statsFold demoSer
        [Json.obj [("DOI", Json.str "10.1/a")]]).totalJsonChars : ℚ) /
        (statsFold demoSer [Json.obj [("DOI", Json.str "10.1/a")]]).count :=
  ((stats_means_exact demoSer
    [Json.obj [("DOI", Json.str "10.1/a")]]).2.2.2.1 (by decide)).1
